import Mathlib

/-!
Verification development for the Aesop backward-chaining planner
(src/Aesop/source/AesopWorldState.cpp and src/Aesop/source/AesopPlanner.cpp).

The data model is a shallow embedding of the two translation units.  Types
that live only in the (absent) headers -- `PVal`, `Fact`, `Operation`, the
condition/effect enumerations, the `Action`/`ActionSet` abstractions and
`IntermediateState` -- are reconstructed from the specification (sections 3
and 6), and each such definition is marked `Modelled from the spec:` in its
doc comment.  Everything whose body appears in the two .cpp files is
translated directly from that body.

Numeric conventions: `PVal` (an opaque totally ordered scalar per the spec)
is embedded as `Int`; the planner's floating-point cost fields (`G`, `H`,
`F`, action costs, preference weights) are embedded as `Rat` -- no claim
under verification depends on floating-point rounding.  The cached digest
(`mHash`) is not modelled: no claim mentions it and the spec notes it is
never consulted for equality.
-/

namespace AesopSrc

/-- Modelled from the spec: `PVal` is an opaque scalar, numeric, totally
ordered and incrementable/decrementable (spec section 3). -/
abbrev PVal := Int

/-- Modelled from the spec: a predicate name (spec section 3: Fact identity
is a predicate name plus an ordered argument list). -/
abbrev PName := Nat

/-- Modelled from the spec: condition types of an `Operation`
(unset-required, equals, not-equals, less, greater, less-or-equal,
greater-or-equal), plus the `NoCondition` and `IsSet` constants the source
switches over. -/
inductive ConditionType where
  | NoCondition
  | IsUnset
  | IsSet
  | Equals
  | NotEqual
  | Less
  | Greater
  | LessEqual
  | GreaterEqual
deriving DecidableEq, Repr

/-- Modelled from the spec: effect types of an `Operation`
(set, unset, increment, decrement) plus the `NoEffect` constant the source
tests for. -/
inductive EffectType where
  | NoEffect
  | Set
  | Unset
  | Increment
  | Decrement
deriving DecidableEq, Repr

/-- Modelled from the spec: one clause of an action definition, pairing a
condition (type + comparison value + optional parameter index) with an
effect (type + value + optional parameter index).  An index of `-1` means
"no parameter binding", matching the `> -1` tests in the source. -/
structure Operation where
  ctype : ConditionType := ConditionType.NoCondition
  cval : PVal := 0
  cidx : Int := -1
  etype : EffectType := EffectType.NoEffect
  eval : PVal := 0
  eidx : Int := -1
deriving DecidableEq, Repr

/-- Modelled from the spec: a Fact is a predicate name plus an ordered list
of arguments, where some slots may instead be indices into a parameter
binding (`indices`, `-1` meaning the slot is already concrete).  Equality
and ordering of facts are structural over name + arguments only. -/
structure Fact where
  pname : PName
  args : List PVal
  indices : List Int := []
deriving DecidableEq, Repr

/-- The identity of a fact as a map key: name + arguments (the header's
`Fact::operator<` orders structurally over name then arguments, so the
`indices` field does not participate in keying). -/
abbrev Key := PName × List PVal

/-- The map key of a fact. -/
def Fact.key (f : Fact) : Key := (f.pname, f.args)

/-- Lexicographic strict order on argument lists, as `std::vector`'s
`operator<` compares them (elementwise; a strict prefix is smaller). -/
def listLt : List PVal → List PVal → Bool
  | [], [] => false
  | [], _ :: _ => true
  | _ :: _, [] => false
  | a :: as, b :: bs => a < b || (a == b && listLt as bs)

/-- Modelled from the spec: the header's `Fact::operator<`, structural over
name then arguments (spec section 3). -/
def keyLt (a b : Key) : Bool :=
  a.1 < b.1 || (a.1 == b.1 && listLt a.2 b.2)

/-- `IntersectMaps` from AesopWorldState.cpp lines 11-31: simultaneous
ordered walk of two key-sorted maps collecting the common keys with both
values. -/
def IntersectMaps : List (Key × PVal) → List (Key × PVal) → List (Key × (PVal × PVal))
  | [], _ => []
  | _ :: _, [] => []
  | (k1, v1) :: l1, (k2, v2) :: l2 =>
    if keyLt k1 k2 then IntersectMaps l1 ((k2, v2) :: l2)
    else if keyLt k2 k1 then IntersectMaps ((k1, v1) :: l1) l2
    else (k1, (v1, v2)) :: IntersectMaps l1 l2
termination_by l1 l2 => l1.length + l2.length

/-- Ordered insertion, the effect of `mState[fact] = val` on a `std::map`:
replace the value if the key is present, otherwise insert at the sorted
position. -/
def mapInsert (k : Key) (v : PVal) : List (Key × PVal) → List (Key × PVal)
  | [] => [(k, v)]
  | kv :: rest =>
    if keyLt k kv.1 then (k, v) :: kv :: rest
    else if keyLt kv.1 k then kv :: mapInsert k v rest
    else (k, v) :: rest

/-- Key removal, the effect of `mState.erase(fact)` on a `std::map`. -/
def mapErase (k : Key) : List (Key × PVal) → List (Key × PVal)
  | [] => []
  | kv :: rest => if kv.1 = k then rest else kv :: mapErase k rest

/-- Key lookup, the effect of `mState.find(fact)` on a `std::map`. -/
def lookupK (k : Key) : List (Key × PVal) → Option PVal
  | [] => none
  | kv :: rest => if kv.1 = k then some kv.2 else lookupK k rest

/-- `WorldState` (AesopWorldState.cpp): an ordered associative mapping from
fact identity to value.  The `std::map` is embedded as its sorted entry
list; the cached `mHash` is not modelled (no claim concerns it). -/
structure WorldState where
  mState : List (Key × PVal) := []
deriving DecidableEq, Repr

/-- The `std::map` representation invariant: entries strictly sorted by key
(hence no duplicate keys). -/
def sortedK (l : List (Key × PVal)) : Prop :=
  l.Pairwise (fun a b => keyLt a.1 b.1 = true)

/-- `WorldState::_set` / `set` (hash update not modelled). -/
def WorldState.set (w : WorldState) (f : Fact) (v : PVal) : WorldState :=
  ⟨mapInsert f.key v w.mState⟩

/-- `WorldState::_unset` / `unset` (hash update not modelled). -/
def WorldState.unset (w : WorldState) (f : Fact) : WorldState :=
  ⟨mapErase f.key w.mState⟩

/-- `WorldState::get`: the C++ signature returns a success flag and writes
the value through a reference; this is embedded as an `Option`. -/
def WorldState.get (w : WorldState) (f : Fact) : Option PVal :=
  lookupK f.key w.mState

/-- `consistent(PVal, ConditionType, PVal)` (AesopWorldState.cpp lines
92-127), translated switch case by switch case.  Note the `NotEqual` case
is translated exactly as written in the source: `if(val != cval) return
false;`.  Condition types without a case label (`NoCondition`, `IsSet`)
fall through to `return true`. -/
def consistentCond (val : PVal) (cond : ConditionType) (cval : PVal) : Bool :=
  match cond with
  | ConditionType.IsUnset => false
  | ConditionType.Equals => if val != cval then false else true
  | ConditionType.NotEqual => if val != cval then false else true
  | ConditionType.Less => if val >= cval then false else true
  | ConditionType.Greater => if val <= cval then false else true
  | ConditionType.LessEqual => if val > cval then false else true
  | ConditionType.GreaterEqual => if val < cval then false else true
  | ConditionType.NoCondition => true
  | ConditionType.IsSet => true

/-- `consistent(PVal, EffectType, PVal)` (AesopWorldState.cpp lines
131-153).  Effect types without a case label (`NoEffect`) fall through to
`return true`. -/
def consistentEff (val : PVal) (eff : EffectType) (eval : PVal) : Bool :=
  match eff with
  | EffectType.Set => val == eval
  | EffectType.Unset => false
  | EffectType.Increment => if val != eval + 1 then false else true
  | EffectType.Decrement => if val != eval - 1 then false else true
  | EffectType.NoEffect => true

/-- `fillOp` (AesopWorldState.cpp lines 155-163): substitute bound
parameters into an operation's condition and effect values.  An
out-of-range index is undefined behaviour in the source (`params[op.cidx]`
on a `std::vector`); it is totalized here with a default of `0` -- no claim
exercises that case. -/
def fillOp (op : Operation) (params : List PVal) : Operation :=
  let op1 := if op.cidx > -1 then { op with cval := params.getD op.cidx.toNat 0 } else op
  if op1.eidx > -1 then { op1 with eval := params.getD op1.eidx.toNat 0 } else op1

/-- The index-walking loop inside `fillFact`: position `i` runs along
`indices`, and `args[i]` is overwritten with `params[*p]` whenever the
index is not `-1`.  Out-of-range writes (`List.set` out of range is a
no-op) and reads (defaulted) are undefined behaviour in the source and are
not exercised by any claim. -/
def fillArgsFrom (params : List PVal) : List PVal → List Int → Nat → List PVal
  | args, [], _ => args
  | args, p :: ps, i =>
    fillArgsFrom params
      (if p != -1 then args.set i (params.getD p.toNat 0) else args) ps (i + 1)

/-- `fillFact` (AesopWorldState.cpp lines 165-174). -/
def fillFact (f : Fact) (params : List PVal) : Fact :=
  { f with args := fillArgsFrom params f.args f.indices 0 }

/-- Modelled from the spec: the external `Action` abstraction (spec section
6): a parameter count, a cost, a special-condition predicate over a
candidate binding, and an ordered collection of (Fact, Operation) clauses. -/
structure Action where
  numParams : Nat := 0
  cost : Rat := 1
  special : List PVal → Bool := fun _ => true
  ops : List (Fact × Operation) := []

/-- `Action::checkSpecialConditions`. -/
def Action.checkSpecialConditions (ac : Action) (params : List PVal) : Bool :=
  ac.special params

/-- `WorldState::preMatch` (AesopWorldState.cpp lines 179-217): every
clause with a non-trivial condition must be consistent with the current
state; a missing fact passes only an `IsUnset` condition. -/
def WorldState.preMatch (w : WorldState) (ac : Action) (params : List PVal) : Bool :=
  ac.checkSpecialConditions params &&
    ac.ops.all (fun c =>
      if c.2.ctype = ConditionType.NoCondition then true
      else
        let op := if params.length != 0 then fillOp c.2 params else c.2
        let f := if params.length != 0 then fillFact c.1 params else c.1
        match w.get f with
        | some val => consistentCond val op.ctype op.cval
        | none => op.ctype == ConditionType.IsUnset)

/-- The loop of `WorldState::postMatch` (AesopWorldState.cpp lines
230-285), with the `consistencies` counter threaded through; `none` embeds
the early `return false`.  The commented-out missing-fact bailouts of the
source are (as in the source) absent: a missing fact neither fails the
match nor counts as a consistency. -/
def postMatchLoop (w : WorldState) (params : List PVal) :
    List (Fact × Operation) → Nat → Option Nat
  | [], k => some k
  | c :: rest, k =>
    let op := if params.length != 0 then fillOp c.2 params else c.2
    let f := if params.length != 0 then fillFact c.1 params else c.1
    if op.etype = EffectType.NoEffect then
      if op.ctype != ConditionType.NoCondition then
        match w.get f with
        | some val =>
          if ¬ consistentCond val op.ctype op.cval then none
          else postMatchLoop w params rest (k + 1)
        | none => postMatchLoop w params rest k
      else postMatchLoop w params rest k
    else
      match w.get f with
      | some val =>
        if ¬ consistentEff val op.etype op.eval then none
        else postMatchLoop w params rest (k + 1)
      | none => postMatchLoop w params rest k

/-- `WorldState::postMatch` (AesopWorldState.cpp lines 226-288): special
conditions, then the clause loop; the final statement is
`return consistencies > 0`. -/
def WorldState.postMatch (w : WorldState) (ac : Action) (params : List PVal) : Bool :=
  ac.checkSpecialConditions params &&
    match postMatchLoop w params ac.ops 0 with
    | none => false
    | some k => decide (k > 0)

/-- `WorldState::applyForward` (AesopWorldState.cpp lines 292-296).  The
body of the source function is empty apart from `updateHash()`: the mapping
is returned unchanged. -/
def WorldState.applyForward (w : WorldState) (_ac : Action) (_params : List PVal) :
    WorldState :=
  w

/-- One iteration of the clause loop of `WorldState::applyReverse`
(AesopWorldState.cpp lines 309-353).  Condition types without a case label
in the inner switch (`NotEqual`, `Less`, ...) leave the state unchanged, as
does `NoEffect` in the effect switch. -/
def applyRevStep (params : List PVal) (st : List (Key × PVal)) (c : Fact × Operation) :
    List (Key × PVal) :=
  let op := if params.length != 0 then fillOp c.2 params else c.2
  let f := if params.length != 0 then fillFact c.1 params else c.1
  if op.ctype = ConditionType.NoCondition then
    match op.etype with
    | EffectType.Set => mapErase f.key st
    | EffectType.Unset => mapInsert f.key op.eval st
    | EffectType.Increment => mapInsert f.key (op.eval - 1) st
    | EffectType.Decrement => mapInsert f.key (op.eval + 1) st
    | EffectType.NoEffect => st
  else
    match op.ctype with
    | ConditionType.IsSet => mapInsert f.key 0 st
    | ConditionType.Equals => mapInsert f.key op.cval st
    | ConditionType.IsUnset => mapErase f.key st
    | _ => st

/-- `WorldState::applyReverse` (AesopWorldState.cpp lines 304-356), hash
update not modelled. -/
def WorldState.applyReverse (w : WorldState) (ac : Action) (params : List PVal) :
    WorldState :=
  ⟨ac.ops.foldl (applyRevStep params) w.mState⟩

/-- `WorldState::compStart` (AesopWorldState.cpp lines 390-401): intersect
the two mappings and count the common keys whose two values differ. -/
def WorldState.compStart (ws1 ws2 : WorldState) : Nat :=
  (IntersectMaps ws1.mState ws2.mState).countP (fun kvv => kvv.2.1 != kvv.2.2)

/-- `WorldState::comp` (AesopWorldState.cpp lines 409-459).  The function
returns on its second statement (`return ws1.mState == ws2.mState ? 0 :
1;`); the symmetric-difference scan below that return is dead code (spec
section 9) and is therefore not part of the function's behaviour. -/
def WorldState.comp (ws1 ws2 : WorldState) : Nat :=
  if ws1.mState = ws2.mState then 0 else 1

/-- Modelled from the spec: the external `ActionSet` abstraction (spec
section 6) -- iteration over (Action, preference-weight) pairs.  The action
slot is a pointer in the source (`it->first`, checked for null in the
update loop), hence an `Option`. -/
abbrev ActionSet := List (Option Action × Rat)

/-- `IntermediateState` (spec section 3): a state snapshot, an ID, the
G/H/F scores, the action and binding used to reach the node, and the
predecessor index into the closed list.  Modelled from the spec: the
default values (used by the header's default constructor) are G = 0, H = 0
"implicitly" (spec section 4.2) and a zero/empty remainder. -/
structure IState where
  state : WorldState := {}
  ID : Nat := 0
  G : Rat := 0
  H : Rat := 0
  F : Rat := 0
  ac : Option Action := none
  params : List PVal := []
  prev : Nat := 0

instance : Inhabited IState := ⟨{}⟩

/-- One entry of a `Plan`: the action taken and its parameter binding. -/
structure ActionEntry where
  ac : Option Action := none
  params : List PVal := []

/-- `Plan`: ordered (action, binding) sequence. -/
abbrev Plan := List ActionEntry

/-- The `Planner` members (AesopPlanner.h via spec sections 3/4.2): the
externally owned start/goal/constants states and action set are held
through possibly-null pointers, hence `Option`; the lists are the open
(frontier) and closed (explored) vectors, the built plan, the object pool,
the success flag and the ID counter. -/
structure Planner where
  mStart : Option WorldState := none
  mGoal : Option WorldState := none
  mConstants : Option WorldState := none
  mActions : Option ActionSet := none
  mObjects : List PVal := []
  mSuccess : Bool := false
  mId : Nat := 0
  mOpenList : List IState := []
  mClosedList : List IState := []
  mPlan : Plan := []

/-- `Planner::setStart`. -/
def Planner.setStart (p : Planner) (w : Option WorldState) : Planner :=
  { p with mStart := w }

/-- `Planner::setGoal`. -/
def Planner.setGoal (p : Planner) (w : Option WorldState) : Planner :=
  { p with mGoal := w }

/-- `Planner::setConstants`. -/
def Planner.setConstants (p : Planner) (w : Option WorldState) : Planner :=
  { p with mConstants := w }

/-- `Planner::setActions`. -/
def Planner.setActions (p : Planner) (s : Option ActionSet) : Planner :=
  { p with mActions := s }

/-- Modelled from the spec: the object-pool setter of the public surface
(spec section 6, "Object pool (consumed)"); it only stores the pool. -/
def Planner.setObjects (p : Planner) (os : List PVal) : Planner :=
  { p with mObjects := os }

/-- `Planner::getPlan`. -/
def Planner.getPlan (p : Planner) : Plan :=
  p.mPlan

/-- The four-argument `Planner` constructor (AesopPlanner.cpp lines
21-29): stores the four pointers, clears the success flag and the ID
counter; the vector members are default-constructed empty. -/
def PlannerMk (start goal con : Option WorldState) (set : Option ActionSet) : Planner :=
  { mStart := start, mGoal := goal, mConstants := con, mActions := set,
    mSuccess := false, mId := 0 }

/-- The default `Planner` constructor (AesopPlanner.cpp lines 31-34).  Its
body, `Planner(NULL, NULL, NULL, NULL);`, constructs and discards a
temporary object instead of initializing the members of the object under
construction (C++03 has no delegating constructors), so the pointer
members, the success flag and the ID counter of the constructed object are
left default-initialized, i.e. indeterminate; the vector members are
properly default-constructed empty.  The indeterminate contents are taken
as parameters. -/
def PlannerDefaultCtor (junkStart junkGoal junkCon : Option WorldState)
    (junkActions : Option ActionSet) (junkSuccess : Bool) (junkId : Nat) : Planner :=
  { mStart := junkStart, mGoal := junkGoal, mConstants := junkCon,
    mActions := junkActions, mSuccess := junkSuccess, mId := junkId }

/-- `Planner::initSlicedPlan` (AesopPlanner.cpp lines 80-103): validate the
three pointers (boolean failure if any is null -- the diagnostic-sink call
has no effect on planner state and is not modelled), reset the
intermediate data, and push a node whose state is the goal with the first
ID onto the open list. -/
def initSlicedPlan (p : Planner) : Bool × Planner :=
  match p.mStart, p.mGoal, p.mActions with
  | some _, some goal, some _ =>
    (true,
     { p with
       mSuccess := false
       mOpenList := [{ state := goal, ID := 0 }]
       mClosedList := []
       mId := 1 })
  | _, _, _ => (false, p)

/-- Modelled from the spec: popping the frontier.  The source calls
`std::pop_heap` with `std::greater<IntermediateState>` (the comparison
operator lives in the missing header; spec section 4.2: a min-heap ordered
by F whose tie order among equal-F nodes is explicitly incidental), then
takes and removes the back element: the net effect is removing a
minimum-F node.  Modelled as removing the first entry holding the minimum
F. -/
def popMinF : List IState → IState × List IState
  | [] => (default, [])
  | [x] => (x, [])
  | x :: y :: ys =>
    let sr := popMinF (y :: ys)
    if x.F ≤ sr.1.F then (x, y :: ys) else (sr.1, x :: sr.2)

/-- The stale-flag carry loop of the binding generator (AesopPlanner.cpp
lines 178-184): `while(obj == mObjects.size() && j > 0) { objs[j] = 0;
j--; objs[j]++; }`.  Note `obj` is fixed before the loop, so once it
equals the pool size the loop keeps carrying until `j` reaches 0. -/
def carryLoop (obj size : Nat) (objs : List Nat) : Nat → List Nat
  | 0 => objs
  | j + 1 =>
    if obj = size then
      carryLoop obj size ((objs.set (j + 1) 0).set j (objs.getD j 0 + 1)) j
    else objs

/-- One advance of the digit vector `objs` (AesopPlanner.cpp lines
177-184): increment the last digit, remember its new value in `obj`, then
run the carry loop with that (never re-read) value. -/
def permStep (size nparams : Nat) (objs : List Nat) : List Nat :=
  let j := nparams - 1
  let obj := objs.getD j 0 + 1
  carryLoop obj size (objs.set j obj) j

/-- The binding-emission loop (AesopPlanner.cpp lines 169-185): for each of
`permutations` iterations, read the binding through `objs` (an index past
the object pool is undefined behaviour in the source, totalized with a
default of `0`) and advance the digit vector. -/
def genBindingsLoop (objects : List PVal) (nparams : Nat) :
    Nat → List Nat → List (List PVal)
  | 0, _ => []
  | i + 1, objs =>
    objs.map (fun d => objects.getD d 0) ::
      genBindingsLoop objects nparams i (permStep objects.length nparams objs)

/-- The full binding generation for one action (AesopPlanner.cpp lines
163-185): `permutations = pow(|objects|, nparams)` (the source computes
this through `float` `pow`, exact for the magnitudes at issue), starting
from an all-zero digit vector. -/
def genBindings (objects : List PVal) (nparams : Nat) : List (List PVal) :=
  genBindingsLoop objects nparams (objects.length ^ nparams)
    (List.replicate nparams 0)

/-- The linear scan of the open list for an entry with the given state
(AesopPlanner.cpp lines 243-262), returning the index of the first match
as the iterator position. -/
def openFindIdx (st : WorldState) : List IState → Option Nat
  | [] => none
  | o :: os => if o.state = st then some 0 else (openFindIdx st os).map (· + 1)

/-- `Planner::attemptIntermediate` (AesopPlanner.cpp lines 204-276):
reject on `postMatch` failure; derive the predecessor by `applyReverse`;
reject if the closed list holds an equal state; score the node (the
comparison `n < *oli` uses the header's operator, spec section 4.2:
ordering by F); on an equal-state open entry replace it when strictly
better (the subsequent `make_heap` only reorders and is not modelled,
the open list being kept in insertion order with a spec-modelled
minimum-F pop); otherwise assign a fresh ID and append. -/
def attemptIntermediate (p : Planner) (s : IState) (ac : Action) (pref : Rat)
    (plist : List PVal) : Planner :=
  if ¬ s.state.postMatch ac plist then p
  else
    let nstate := s.state.applyReverse ac plist
    if p.mClosedList.any (fun cli => cli.state = nstate) then p
    else
      let H : Rat := (WorldState.comp nstate ((p.mStart).getD {}) : Nat)
      let G : Rat := s.G + ac.cost * pref
      let n : IState :=
        { state := nstate, G := G, H := H, F := G + H, ac := some ac,
          params := plist, prev := p.mClosedList.length - 1 }
      match openFindIdx nstate p.mOpenList with
      | some i =>
        if n.F < (p.mOpenList.getD i default).F then
          { p with mOpenList := p.mOpenList.set i n }
        else p
      | none =>
        { p with
          mOpenList := p.mOpenList ++ [{ n with ID := p.mId }]
          mId := p.mId + 1 }

/-- The action/binding expansion loops of `Planner::updateSlicedPlan`
(AesopPlanner.cpp lines 152-196): for each non-null action of the set,
generate the binding family (the cross-product enumeration when the action
has parameters and the pool is nonempty, a single empty binding otherwise)
and attempt each binding. -/
def expandActions (p : Planner) (s : IState) : Planner :=
  (p.mActions.getD []).foldl
    (fun q entry =>
      match entry.1 with
      | none => q
      | some ac =>
        let bindings :=
          if ac.numParams != 0 && !p.mObjects.isEmpty then
            genBindings p.mObjects ac.numParams
          else [[]]
        bindings.foldl (fun q2 b => attemptIntermediate q2 s ac entry.2 b) q)
    p

/-- `Planner::updateSlicedPlan` (AesopPlanner.cpp lines 128-202): pop the
best node, close it, test for completeness against the start state, and
otherwise expand every action/binding pair.  Returns the continue flag and
the new planner state. -/
def updateSlicedPlan (p : Planner) : Bool × Planner :=
  match p.mOpenList with
  | [] => (false, p)
  | x :: xs =>
    let sr := popMinF (x :: xs)
    let p1 := { p with mOpenList := sr.2, mClosedList := p.mClosedList ++ [sr.1] }
    if WorldState.compStart sr.1.state (p.mStart.getD {}) = 0 then
      (false, { p1 with mSuccess := true })
    else
      (true, expandActions p1 sr.1)

/-- The plan-reconstruction walk of `Planner::finaliseSlicedPlan`
(AesopPlanner.cpp lines 112-121): `i` starts at the last closed index and
follows `prev` links while nonzero, collecting (action, binding) entries.
The fuel argument makes the walk total; every `prev` link written by the
source points strictly below its own index, so the closed-list length is
always enough fuel. -/
def planWalk (closed : List IState) : Nat → Nat → Plan
  | 0, _ => []
  | _, 0 => []
  | fuel + 1, i + 1 =>
    let node := closed.getD (i + 1) default
    { ac := node.ac, params := node.params } :: planWalk closed fuel node.prev

/-- `Planner::finaliseSlicedPlan` (AesopPlanner.cpp lines 105-126): clear
the plan, rebuild it from the closed list when successful, then purge the
open and closed lists unconditionally. -/
def finaliseSlicedPlan (p : Planner) : Planner :=
  let plan :=
    if p.mSuccess then
      planWalk p.mClosedList p.mClosedList.length (p.mClosedList.length - 1)
    else []
  { p with mPlan := plan, mOpenList := [], mClosedList := [] }

/-- `Planner::plan` is a wrapper around init / update-until-stop /
finalise; the update loop is bounded by fuel here (the search space can
genuinely be infinite; no claim quantifies over `plan` itself). -/
def planFuel : Nat → Planner → Planner
  | 0, p => p
  | fuel + 1, p =>
    let bp := updateSlicedPlan p
    if bp.1 then planFuel fuel bp.2 else bp.2

/-- The outcome of the `postMatch` loop body on a single clause: `some b`
when the loop consults the state for the clause's fact and finds it, with
`b` the consistency verdict (against the effect when the clause has one,
against the condition when it has only a condition); `none` when the loop
does not test the clause (fact absent from the state, or the clause has
neither effect nor condition). -/
def clauseCheck (w : WorldState) (params : List PVal) (c : Fact × Operation) :
    Option Bool :=
  let op := if params.length != 0 then fillOp c.2 params else c.2
  let f := if params.length != 0 then fillFact c.1 params else c.1
  if op.etype = EffectType.NoEffect then
    if op.ctype != ConditionType.NoCondition then
      match w.get f with
      | some val => some (consistentCond val op.ctype op.cval)
      | none => none
    else none
  else
    match w.get f with
    | some val => some (consistentEff val op.etype op.eval)
    | none => none

/-- Modelled from the spec, as comparison target for the binding claim:
the cross product of the object pool across `n` parameter slots (spec
section 4.2, "cross product of the available object pool across the
action's parameter slots"). -/
def crossProductSpec (objs : List PVal) : Nat → List (List PVal)
  | 0 => [[]]
  | n + 1 => objs.flatMap (fun o => (crossProductSpec objs n).map (fun b => o :: b))

/-- The planner states reachable through the public phase calls: either
constructor, then any sequence of setters, `initSlicedPlan` (successful or
not), `updateSlicedPlan` and `finaliseSlicedPlan`. -/
inductive Reach : Planner → Prop
  | ctor : ∀ start goal con set, Reach (PlannerMk start goal con set)
  | dflt : ∀ js jg jc ja jb ji, Reach (PlannerDefaultCtor js jg jc ja jb ji)
  | start : ∀ p w, Reach p → Reach (p.setStart w)
  | goal : ∀ p w, Reach p → Reach (p.setGoal w)
  | constants : ∀ p w, Reach p → Reach (p.setConstants w)
  | actions : ∀ p s, Reach p → Reach (p.setActions s)
  | objects : ∀ p os, Reach p → Reach (p.setObjects os)
  | init : ∀ p, Reach p → Reach (initSlicedPlan p).2
  | update : ∀ p, Reach p → Reach (updateSlicedPlan p).2
  | finalise : ∀ p, Reach p → Reach (finaliseSlicedPlan p)

/-- The pruning property under scrutiny: the world states held by the
entries of a list are pairwise structurally distinct. -/
def distinctStates (l : List IState) : Prop :=
  (l.map (fun n => n.state)).Pairwise (fun a b => a ≠ b)

/-- Internal invariant carrying the pruning property: the states across
the open and closed lists together are pairwise distinct. -/
def openClosedDistinct (p : Planner) : Prop :=
  distinctStates (p.mOpenList ++ p.mClosedList)

/-- A fact with predicate name 1 and no arguments, used by concrete test
inputs. -/
def factA : Fact := { pname := 1, args := [] }

/-- A fact with predicate name 2 and no arguments, used by concrete test
inputs. -/
def factB : Fact := { pname := 2, args := [] }

/-- An effect-only operation setting its fact to `v`. -/
def opSet (v : PVal) : Operation := { etype := EffectType.Set, eval := v }

/-- Concrete action with two effect-only clauses: set `factA` to 1 and
`factB` to 2. -/
def acTwoClause : Action := { ops := [(factA, opSet 1), (factB, opSet 2)] }

/-- Concrete state in which `factA` has value 1 (matching the first clause
of `acTwoClause`) and `factB` has value 3 (contradicting its second
clause). -/
def wMixed : WorldState := ⟨[((1, []), 1), ((2, []), 3)]⟩

/-- Concrete single-clause effect-only action: set `factA` to 5. -/
def acSetA5 : Action := { ops := [(factA, opSet 5)] }

/-- Concrete state in which `factA` has value 5. -/
def wA5 : WorldState := ⟨[((1, []), 5)]⟩

/-- A fully configured planner over empty start and goal states, an empty
action set and no constants, used by concrete witnesses. -/
def pReady : Planner := PlannerMk (some ⟨[]⟩) (some ⟨[]⟩) none (some [])

/-- Concrete sorted state {fact 1 -> 1, fact 2 -> 2} for the `compStart`
witness. -/
def wCmpA : WorldState := ⟨[((1, []), 1), ((2, []), 2)]⟩

/-- Concrete sorted state {fact 2 -> 3, fact 3 -> 1} for the `compStart`
witness: it shares only fact 2 with `wCmpA`, at a differing value. -/
def wCmpB : WorldState := ⟨[((2, []), 3), ((3, []), 1)]⟩

/-- C3.  The claim says a present value satisfies a not-equals condition
exactly when it differs from the target.  The source's `NotEqual` case
reads `if(val != cval) return false;` -- contradicting the comment right
above it ("If the value is what it's not supposed to be, fail") -- so the
code rejects the differing value 1 against target 2 and accepts the equal
value 2 against target 2: `NotEqual` behaves as an equality test.  The
remaining comparison cases behave as the claim states (third through sixth
conjuncts sample them). -/
theorem C3_notEqual_behaves_as_equality :
    consistentCond 1 ConditionType.NotEqual 2 = false ∧
    consistentCond 2 ConditionType.NotEqual 2 = true ∧
    consistentCond 2 ConditionType.Equals 2 = true ∧
    consistentCond 1 ConditionType.Less 2 = true ∧
    consistentCond 2 ConditionType.GreaterEqual 2 = true ∧
    consistentCond 1 ConditionType.IsUnset 2 = false := by
  decide

/-- C2.  The claim requires `applyReverse` then `applyForward` (same
action, same binding) to reproduce the original state for an effect-only
action.  The source body of `WorldState::applyForward` is empty apart from
the hash update, so the forward pass changes nothing: for the effect-only
action "set factA to 5" and the state in which factA is 5, the reverse
pass unsets the fact and the forward pass fails to restore it. -/
theorem C2_roundTrip_fails_on_effect_only_action :
    acSetA5.ops.all (fun c => c.2.ctype == ConditionType.NoCondition) = true ∧
    (wA5.applyReverse acSetA5 []).applyForward acSetA5 [] =
      wA5.applyReverse acSetA5 [] ∧
    (wA5.applyReverse acSetA5 []).applyForward acSetA5 [] ≠ wA5 := by
  refine ⟨rfl, rfl, ?_⟩
  decide

/-- C4.  The claim says every binding of the |objects|^n cross product is
generated and attempted exactly once.  The carry loop of the generator
tests a stale overflow flag, so the first overflow of the last digit
clears and increments every higher digit: with the pool [5, 7] and a
3-parameter action the generator allocates the right count (8) but
enumerates digit vectors 000, 001, 100, 101, 200, 201, 300, 301 (the last
four indexing past the pool -- undefined behaviour in the source), and the
cross-product binding (5, 7, 5) is never produced. -/
theorem C4_cross_product_binding_never_generated :
    [5, 7, 5] ∈ crossProductSpec [5, 7] 3 ∧
    (genBindings [5, 7] 3).length = 2 ^ 3 ∧
    [5, 7, 5] ∉ genBindings [5, 7] 3 := by
  decide

/-- C10.  The claim says a default-constructed planner has null start,
goal and action-set pointers, so `initSlicedPlan` returns failure.  The
default constructor's body `Planner(NULL, NULL, NULL, NULL);` constructs
and discards a temporary instead of initializing the object, leaving the
pointer members indeterminate: when the indeterminate contents happen to
be non-null (first conjunct instantiates such contents), `initSlicedPlan`
passes validation and starts a search.  The second conjunct shows the
intended behaviour -- a planner whose pointers really are null fails
`initSlicedPlan` -- which is what the four-argument constructor with null
arguments would have produced. -/
theorem C10_default_ctor_members_not_null :
    (initSlicedPlan
      (PlannerDefaultCtor (some ⟨[]⟩) (some ⟨[]⟩) none (some []) true 7)).1 = true ∧
    (initSlicedPlan (PlannerMk none none none none)).1 = false := by
  exact ⟨rfl, rfl⟩

/-- C8.  When the search ended unsuccessfully, `finaliseSlicedPlan` leaves
the freshly cleared plan empty (so `getPlan` yields the empty sequence),
and it clears the open and closed lists unconditionally. -/
theorem C8_finalise_unsuccessful_empty_plan (p : Planner) :
    (p.mSuccess = false → (finaliseSlicedPlan p).getPlan = []) ∧
    (finaliseSlicedPlan p).mOpenList = [] ∧
    (finaliseSlicedPlan p).mClosedList = [] := by
  refine ⟨fun h => ?_, rfl, rfl⟩
  simp [finaliseSlicedPlan, Planner.getPlan, h]

/-- Witness for C8 at a concrete unsuccessful planner. -/
theorem C8_finalise_witness :
    (finaliseSlicedPlan (PlannerMk none none none none)).getPlan = [] ∧
    (finaliseSlicedPlan (PlannerMk none none none none)).mOpenList = [] := by
  exact ⟨(C8_finalise_unsuccessful_empty_plan (PlannerMk none none none none)).1 rfl,
    (C8_finalise_unsuccessful_empty_plan (PlannerMk none none none none)).2.1⟩

/-- C6.  `initSlicedPlan` returns the boolean failure exactly when the
start state, goal state or action set pointer is unset (it is a total
function: there is no exception path); on success it resets the success
flag, clears the explored set and seeds the frontier with exactly one
node whose state is the goal state and whose ID is 0. -/
theorem C6_init_validation_and_seed (p : Planner) :
    ((initSlicedPlan p).1 = false ↔
      (p.mStart = none ∨ p.mGoal = none ∨ p.mActions = none)) ∧
    ((initSlicedPlan p).1 = true →
      (initSlicedPlan p).2.mSuccess = false ∧
      (initSlicedPlan p).2.mClosedList = [] ∧
      ∃ g, p.mGoal = some g ∧
        (initSlicedPlan p).2.mOpenList = [{ state := g, ID := 0 }]) := by
  rcases hs : p.mStart with _ | st <;> rcases hg : p.mGoal with _ | g <;>
    rcases ha : p.mActions with _ | as <;>
    simp [initSlicedPlan, hs, hg, ha]

/-- Witness for C6: on a fully configured planner, init succeeds and the
seeded search data is as stated. -/
theorem C6_init_witness :
    (initSlicedPlan pReady).2.mSuccess = false ∧
    (initSlicedPlan pReady).2.mClosedList = [] ∧
    ∃ g, pReady.mGoal = some g ∧
      (initSlicedPlan pReady).2.mOpenList = [{ state := g, ID := 0 }] :=
  (C6_init_validation_and_seed pReady).2 rfl

/-- Stepping the `postMatch` loop over one clause branches on that
clause's check outcome: an inconsistent tested clause aborts with `none`
(the early `return false`), a consistent tested clause bumps the
`consistencies` counter, an untested clause changes nothing. -/
theorem postMatchLoop_cons (w : WorldState) (params : List PVal)
    (c : Fact × Operation) (cs : List (Fact × Operation)) (k : Nat) :
    postMatchLoop w params (c :: cs) k =
      match clauseCheck w params c with
      | some false => none
      | some true => postMatchLoop w params cs (k + 1)
      | none => postMatchLoop w params cs k := by
  simp only [postMatchLoop, clauseCheck]
  by_cases he :
      (if params.length != 0 then fillOp c.2 params else c.2).etype =
        EffectType.NoEffect <;>
    by_cases hc :
      ((if params.length != 0 then fillOp c.2 params else c.2).ctype !=
        ConditionType.NoCondition) = true <;>
    rcases hg : w.get (if params.length != 0 then fillFact c.1 params else c.1)
      with _ | val <;>
    simp only [he, hc, hg, if_true, if_false, ite_true, ite_false,
      Bool.not_eq_true] <;>
    (try rfl) <;>
    (split <;> simp_all) <;>
    (split <;> simp_all)

/-- Closed form of the `postMatch` loop: it fails iff some clause checks
inconsistent, and otherwise returns the start counter plus the number of
clauses that check consistent. -/
theorem postMatchLoop_spec (w : WorldState) (params : List PVal) :
    ∀ (cs : List (Fact × Operation)) (k : Nat),
    postMatchLoop w params cs k =
      if cs.any (fun c => clauseCheck w params c == some false) then none
      else some (k + cs.countP (fun c => clauseCheck w params c == some true)) := by
  intro cs
  induction cs with
  | nil => intro k; simp [postMatchLoop]
  | cons c cs ih =>
    intro k
    rw [postMatchLoop_cons]
    rcases h : clauseCheck w params c with _ | b
    · have h1 : (clauseCheck w params c == some false) = false := by rw [h]; rfl
      have h2 : (clauseCheck w params c == some true) = false := by rw [h]; rfl
      show postMatchLoop w params cs k = _
      rw [ih k, List.any_cons, List.countP_cons, h1, h2, Bool.false_or]
      simp
    · cases b
      · simp [h]
      · rw [ih (k + 1)]
        by_cases ha : cs.any (fun c => clauseCheck w params c == some false) = true
        · simp [h, ha]
        · simp only [Bool.not_eq_true] at ha
          simp [h, ha]
          omega

/-- C1 (amended).  `postMatch` returns true iff the action's
special-condition predicate accepts the binding, no clause checks
inconsistent, and at least one clause checks consistent -- where a clause
is checked only when the state holds a value for its (parameter-filled)
fact, against the effect when the clause has one and against the
condition when it has only a condition.  (The frozen claim's "regardless
of whether other clauses are inconsistent" fails: an inconsistent checked
clause makes the whole match fail.) -/
theorem C1_postMatch_characterization (w : WorldState) (ac : Action)
    (params : List PVal) :
    w.postMatch ac params = true ↔
      (ac.checkSpecialConditions params = true ∧
       (∀ c ∈ ac.ops, clauseCheck w params c ≠ some false) ∧
       (∃ c ∈ ac.ops, clauseCheck w params c = some true)) := by
  rw [WorldState.postMatch, postMatchLoop_spec]
  by_cases ha : ac.ops.any (fun c => clauseCheck w params c == some false) = true
  · simp only [ha, if_true, Bool.and_eq_true]
    rw [List.any_eq_true] at ha
    obtain ⟨c, hmem, hcc⟩ := ha
    rw [beq_iff_eq] at hcc
    constructor
    · rintro ⟨-, h2⟩; cases h2
    · rintro ⟨-, hall, -⟩; exact absurd hcc (hall c hmem)
  · have ha2 : ac.ops.any (fun c => clauseCheck w params c == some false) = false := by
      simpa using ha
    simp only [ha2, Bool.false_eq_true, if_false, Bool.and_eq_true,
      decide_eq_true_eq, Nat.zero_add]
    rw [List.any_eq_false] at ha2
    constructor
    · rintro ⟨h1, h2⟩
      refine ⟨h1, ?_, ?_⟩
      · intro c hc
        have := ha2 c hc
        simpa using this
      · have hpos : 0 < ac.ops.countP (fun c => clauseCheck w params c == some true) := h2
        rw [List.countP_pos_iff] at hpos
        obtain ⟨c, hc, hcc⟩ := hpos
        exact ⟨c, hc, by simpa using hcc⟩
    · rintro ⟨h1, hall, c, hc, hcc⟩
      refine ⟨h1, ?_⟩
      exact List.countP_pos_iff.mpr ⟨c, hc, by simp [hcc]⟩

/-- C9.  When the goal state already agrees with the start state
(`compStart(goal, start) == 0`), init succeeds, the first update pops the
root node, marks success and returns stop, and finalisation leaves the
success flag set with an empty plan: the root node's action never enters
the plan (the reconstruction walk stops at index 0 immediately). -/
theorem C9_goal_agreeing_with_start (p : Planner) (st g : WorldState)
    (as : ActionSet) (hs : p.mStart = some st) (hg : p.mGoal = some g)
    (ha : p.mActions = some as) (h0 : WorldState.compStart g st = 0) :
    (initSlicedPlan p).1 = true ∧
    (updateSlicedPlan (initSlicedPlan p).2).1 = false ∧
    (updateSlicedPlan (initSlicedPlan p).2).2.mSuccess = true ∧
    (finaliseSlicedPlan (updateSlicedPlan (initSlicedPlan p).2).2).mSuccess = true ∧
    (finaliseSlicedPlan (updateSlicedPlan (initSlicedPlan p).2).2).getPlan = [] := by
  have hinit : initSlicedPlan p =
      (true, { p with mSuccess := false,
                      mOpenList := [{ state := g, ID := 0 }],
                      mClosedList := [], mId := 1 }) := by
    simp [initSlicedPlan, hs, hg, ha]
  rw [hinit]
  have hupd : updateSlicedPlan
      ({ p with mSuccess := false, mOpenList := [{ state := g, ID := 0 }],
                mClosedList := [], mId := 1 } : Planner) =
      (false, { p with mSuccess := true, mOpenList := [],
                       mClosedList := [({ state := g, ID := 0 } : IState)],
                       mId := 1 }) := by
    rw [updateSlicedPlan]
    simp [popMinF, hs, h0]
  rw [hupd]
  refine ⟨rfl, rfl, rfl, rfl, ?_⟩
  rw [finaliseSlicedPlan]
  simp [planWalk, Planner.getPlan]

/-- Witness for C9 on a planner whose start and goal are both the empty
state. -/
theorem C9_goal_agreeing_witness :
    (initSlicedPlan pReady).1 = true ∧
    (updateSlicedPlan (initSlicedPlan pReady).2).1 = false ∧
    (updateSlicedPlan (initSlicedPlan pReady).2).2.mSuccess = true ∧
    (finaliseSlicedPlan (updateSlicedPlan (initSlicedPlan pReady).2).2).mSuccess
      = true ∧
    (finaliseSlicedPlan (updateSlicedPlan (initSlicedPlan pReady).2).2).getPlan
      = [] :=
  C9_goal_agreeing_with_start pReady ⟨[]⟩ ⟨[]⟩ [] rfl rfl rfl
    (by simp [WorldState.compStart, IntersectMaps])

/-- C1 counterexample: in `wMixed`, the first clause of `acTwoClause`
checks consistent (the claim therefore says `postMatch` returns true),
but the second clause is inconsistent and `postMatch` returns false. -/
theorem C1_counterexample :
    (factA, opSet 1) ∈ acTwoClause.ops ∧
    clauseCheck wMixed [] (factA, opSet 1) = some true ∧
    wMixed.postMatch acTwoClause [] = false := by
  decide

/-- The argument order `listLt` is irreflexive. -/
theorem listLt_irrefl : ∀ l : List PVal, listLt l l = false
  | [] => rfl
  | a :: as => by simp [listLt, listLt_irrefl as]

/-- The key order is irreflexive. -/
theorem keyLt_irrefl (k : Key) : keyLt k k = false := by
  simp [keyLt, listLt_irrefl]

/-- Two argument lists neither of which is below the other are equal. -/
theorem listLt_conn : ∀ {a b : List PVal},
    listLt a b = false → listLt b a = false → a = b
  | [], [], _, _ => rfl
  | [], _ :: _, h, _ => by simp [listLt] at h
  | _ :: _, [], _, h => by simp [listLt] at h
  | a :: as, b :: bs, h1, h2 => by
    simp only [listLt, Bool.or_eq_false_iff, Bool.and_eq_false_iff,
      decide_eq_false_iff_not, not_lt, beq_eq_false_iff_ne, ne_eq] at h1 h2
    have hab : a = b := le_antisymm h2.1 h1.1
    subst hab
    rcases h1.2 with h1c | h1c
    · exact absurd rfl h1c
    · rcases h2.2 with h2c | h2c
      · exact absurd rfl h2c
      · exact congrArg (a :: ·) (listLt_conn h1c h2c)

/-- Two keys neither of which is below the other are equal. -/
theorem keyLt_conn {a b : Key} (h1 : keyLt a b = false) (h2 : keyLt b a = false) :
    a = b := by
  obtain ⟨n1, a1⟩ := a
  obtain ⟨n2, a2⟩ := b
  simp only [keyLt, Bool.or_eq_false_iff, Bool.and_eq_false_iff,
    decide_eq_false_iff_not, not_lt, beq_eq_false_iff_ne, ne_eq] at h1 h2
  have hn : n1 = n2 := le_antisymm h2.1 h1.1
  subst hn
  rcases h1.2 with h1c | h1c
  · exact absurd rfl h1c
  · rcases h2.2 with h2c | h2c
    · exact absurd rfl h2c
    · exact congrArg (Prod.mk n1) (listLt_conn h1c h2c)

/-- The argument order is transitive. -/
theorem listLt_trans : ∀ (l1 l2 l3 : List PVal),
    listLt l1 l2 = true → listLt l2 l3 = true → listLt l1 l3 = true := by
  intro l1
  induction l1 with
  | nil =>
    intro l2 l3 _ h2
    cases l3 with
    | nil => cases l2 <;> simp [listLt] at h2
    | cons c cs => simp [listLt]
  | cons a as ih =>
    intro l2 l3 h1 h2
    cases l2 with
    | nil => simp [listLt] at h1
    | cons b bs =>
      cases l3 with
      | nil => simp [listLt] at h2
      | cons c cs =>
        simp only [listLt, Bool.or_eq_true, Bool.and_eq_true,
          decide_eq_true_eq, beq_iff_eq] at h1 h2 ⊢
        rcases h1 with h1 | ⟨hab, h1⟩
        · rcases h2 with h2 | ⟨hbc, h2⟩
          · exact Or.inl (lt_trans h1 h2)
          · exact Or.inl (hbc ▸ h1)
        · rcases h2 with h2 | ⟨hbc, h2⟩
          · exact Or.inl (hab ▸ h2)
          · exact Or.inr ⟨hab.trans hbc, ih bs cs h1 h2⟩

/-- The key order is transitive. -/
theorem keyLt_trans {a b c : Key} (h1 : keyLt a b = true) (h2 : keyLt b c = true) :
    keyLt a c = true := by
  obtain ⟨n1, a1⟩ := a
  obtain ⟨n2, a2⟩ := b
  obtain ⟨n3, a3⟩ := c
  simp only [keyLt, Bool.or_eq_true, Bool.and_eq_true, decide_eq_true_eq,
    beq_iff_eq] at h1 h2 ⊢
  rcases h1 with h1 | ⟨hab, h1⟩
  · rcases h2 with h2 | ⟨hbc, h2⟩
    · exact Or.inl (lt_trans h1 h2)
    · exact Or.inl (hbc ▸ h1)
  · rcases h2 with h2 | ⟨hbc, h2⟩
    · exact Or.inl (hab ▸ h2)
    · exact Or.inr ⟨hab.trans hbc, listLt_trans a1 a2 a3 h1 h2⟩

/-- A key strictly below another is distinct from it. -/
theorem keyLt_ne {a b : Key} (h : keyLt a b = true) : a ≠ b := by
  intro he
  subst he
  rw [keyLt_irrefl] at h
  cases h

/-- Looking up a key none of the entries carry yields nothing. -/
theorem lookupK_eq_none_of_forall_ne {k : Key} :
    ∀ {l : List (Key × PVal)}, (∀ kv ∈ l, kv.1 ≠ k) → lookupK k l = none := by
  intro l
  induction l with
  | nil => intro _; rfl
  | cons kv rest ih =>
    intro h
    rw [lookupK, if_neg (h kv (List.mem_cons_self kv rest))]
    exact ih fun x hx => h x (List.mem_cons_of_mem _ hx)

/-- In a sorted entry list the head key is strictly below every later key. -/
theorem sortedK_head_lt {a : Key × PVal} {l : List (Key × PVal)}
    (h : sortedK (a :: l)) : ∀ kv ∈ l, keyLt a.1 kv.1 = true :=
  fun kv hkv => (List.pairwise_cons.mp h).1 kv hkv

/-- The tail of a sorted entry list is sorted. -/
theorem sortedK_tail {a : Key × PVal} {l : List (Key × PVal)}
    (h : sortedK (a :: l)) : sortedK l :=
  (List.pairwise_cons.mp h).2

/-- Pointwise equal functions give equal `filterMap`s. -/
theorem filterMap_congr_mem {α β : Type} {f g : α → Option β} :
    ∀ {l : List α}, (∀ a ∈ l, f a = g a) → l.filterMap f = l.filterMap g := by
  intro l
  induction l with
  | nil => intro _; rfl
  | cons a l ih =>
    intro h
    rw [List.filterMap_cons, List.filterMap_cons,
      h a (List.mem_cons_self a l),
      ih fun x hx => h x (List.mem_cons_of_mem _ hx)]

/-- Correctness of the ordered merge walk: on key-sorted inputs,
`IntersectMaps` pairs each entry of the left map with the looked-up value
of the same key in the right map, dropping left entries whose key the
right map lacks. -/
theorem IntersectMaps_eq : ∀ (l1 l2 : List (Key × PVal)),
    sortedK l1 → sortedK l2 →
    IntersectMaps l1 l2 =
      l1.filterMap (fun kv =>
        (lookupK kv.1 l2).map (fun w => (kv.1, (kv.2, w)))) := by
  intro l1 l2
  induction l1, l2 using IntersectMaps.induct with
  | case1 l2 =>
    intro _ _
    simp [IntersectMaps]
  | case2 kv l1 =>
    intro _ _
    rw [IntersectMaps]
    rw [eq_comm, List.filterMap_eq_nil_iff]
    intro a _
    rfl
  | case3 k1 v1 l1 k2 v2 l2 hlt ih =>
    intro h1 h2
    rw [IntersectMaps, if_pos hlt, List.filterMap_cons]
    have hnone : lookupK k1 ((k2, v2) :: l2) = none := by
      apply lookupK_eq_none_of_forall_ne
      intro kv hkv
      rcases List.mem_cons.mp hkv with he | hm
      · rw [he]
        exact fun hc => keyLt_ne hlt hc.symm
      · exact fun hc =>
          keyLt_ne (keyLt_trans hlt (sortedK_head_lt h2 kv hm)) hc.symm
    rw [hnone]
    exact ih (sortedK_tail h1) h2
  | case4 k1 v1 l1 k2 v2 l2 hlt1 hlt2 ih =>
    intro h1 h2
    rw [IntersectMaps, if_neg (by simp [hlt1]), if_pos hlt2]
    rw [ih h1 (sortedK_tail h2)]
    apply filterMap_congr_mem
    intro kv hkv
    have hne : k2 ≠ kv.1 := by
      rcases List.mem_cons.mp hkv with he | hm
      · rw [he]
        exact keyLt_ne hlt2
      · exact keyLt_ne (keyLt_trans hlt2 (sortedK_head_lt h1 kv hm))
    rw [lookupK, if_neg hne]
  | case5 k1 v1 l1 k2 v2 l2 hlt1 hlt2 ih =>
    intro h1 h2
    have hk : k1 = k2 := keyLt_conn (by simpa using hlt1) (by simpa using hlt2)
    rw [IntersectMaps, if_neg (by simp [hlt1]), if_neg (by simp [hlt2]),
      List.filterMap_cons]
    have hsome : lookupK k1 ((k2, v2) :: l2) = some v2 := by
      rw [lookupK, if_pos hk.symm]
    rw [hsome]
    rw [ih (sortedK_tail h1) (sortedK_tail h2)]
    refine congrArg _ ?_
    apply filterMap_congr_mem
    intro kv hkv
    have hne : k2 ≠ kv.1 := fun hc =>
      keyLt_ne (sortedK_head_lt h1 kv hkv) (hk.trans hc)
    rw [lookupK, if_neg hne]

/-- Counting value-disagreements over the merged pairing equals counting,
over the left map, the entries whose key the right map binds to a
different value. -/
theorem countP_filterMap_lookup (l2 : List (Key × PVal)) :
    ∀ l1 : List (Key × PVal),
    ((l1.filterMap (fun kv =>
        (lookupK kv.1 l2).map (fun w => (kv.1, (kv.2, w))))).countP
      (fun kvv => kvv.2.1 != kvv.2.2))
      = l1.countP (fun kv =>
          match lookupK kv.1 l2 with
          | some w => kv.2 != w
          | none => false) := by
  intro l1
  induction l1 with
  | nil => rfl
  | cons kv l1 ih =>
    rcases hl : lookupK kv.1 l2 with _ | w
    · simp [List.filterMap_cons, hl, List.countP_cons, ih]
    · simp [List.filterMap_cons, hl, List.countP_cons, ih]

/-- A successful lookup produces an entry of the list. -/
theorem lookupK_mem {k : Key} {v : PVal} :
    ∀ {l : List (Key × PVal)}, lookupK k l = some v → (k, v) ∈ l := by
  intro l
  induction l with
  | nil => intro h; cases h
  | cons kv rest ih =>
    intro h
    rw [lookupK] at h
    by_cases he : kv.1 = k
    · rw [if_pos he] at h
      have hv : kv.2 = v := by injection h
      obtain ⟨k0, v0⟩ := kv
      cases he
      cases hv
      exact List.mem_cons_self _ _
    · rw [if_neg he] at h
      exact List.mem_cons_of_mem _ (ih h)

/-- In a sorted entry list every entry is found by looking up its key. -/
theorem lookupK_of_mem_sorted {k : Key} {v : PVal} :
    ∀ {l : List (Key × PVal)}, sortedK l → (k, v) ∈ l → lookupK k l = some v := by
  intro l
  induction l with
  | nil => intro _ h; cases h
  | cons kv rest ih =>
    intro hs hm
    rcases List.mem_cons.mp hm with he | hm2
    · rw [← he, lookupK, if_pos rfl]
    · have hlt : keyLt kv.1 (k, v).1 = true := sortedK_head_lt hs (k, v) hm2
      have hne : kv.1 ≠ k := keyLt_ne hlt
      rw [lookupK, if_neg hne]
      exact ih (sortedK_tail hs) hm2

/-- C5.  On well-formed (key-sorted, as `std::map` guarantees) states,
`compStart` equals the number of facts present in both mappings whose
values differ -- in particular it is zero iff every shared fact agrees,
and a fact present in only one state never contributes (the counting
predicate is false whenever the right-hand lookup fails). -/
theorem C5_compStart_counts_disagreements (A B : WorldState)
    (hA : sortedK A.mState) (hB : sortedK B.mState) :
    WorldState.compStart A B
      = A.mState.countP (fun kv =>
          match lookupK kv.1 B.mState with
          | some w => kv.2 != w
          | none => false) ∧
    (WorldState.compStart A B = 0 ↔
      ∀ k v w, lookupK k A.mState = some v → lookupK k B.mState = some w →
        v = w) := by
  have hmain : WorldState.compStart A B
      = A.mState.countP (fun kv =>
          match lookupK kv.1 B.mState with
          | some w => kv.2 != w
          | none => false) := by
    rw [WorldState.compStart, IntersectMaps_eq A.mState B.mState hA hB,
      countP_filterMap_lookup]
  refine ⟨hmain, ?_⟩
  rw [hmain, List.countP_eq_zero]
  constructor
  · intro hall k v w hka hkb
    have hmem : (k, v) ∈ A.mState := lookupK_mem hka
    have hp := hall (k, v) hmem
    rw [hkb] at hp
    simpa using hp
  · intro hall kv hm
    have hk : lookupK kv.1 A.mState = some kv.2 :=
      lookupK_of_mem_sorted hA (by simpa using hm)
    rcases hl : lookupK kv.1 B.mState with _ | w
    · simp [hl]
    · have := hall kv.1 kv.2 w hk hl
      simp [hl, this]

/-- A two-entry list with increasing keys is sorted. -/
theorem sortedK_pair {a b : Key × PVal} (h : keyLt a.1 b.1 = true) :
    sortedK [a, b] := by
  refine List.Pairwise.cons ?_ (List.Pairwise.cons ?_ List.Pairwise.nil)
  · intro x hx
    rw [List.mem_singleton] at hx
    rw [hx]
    exact h
  · intro x hx
    cases hx

/-- Witness for C5 on the concrete sorted states `wCmpA` and `wCmpB`
(sharing exactly one fact, at disagreeing values). -/
theorem C5_compStart_witness :
    WorldState.compStart wCmpA wCmpB
      = wCmpA.mState.countP (fun kv =>
          match lookupK kv.1 wCmpB.mState with
          | some w => kv.2 != w
          | none => false) ∧
    (WorldState.compStart wCmpA wCmpB = 0 ↔
      ∀ k v w, lookupK k wCmpA.mState = some v →
        lookupK k wCmpB.mState = some w → v = w) :=
  C5_compStart_counts_disagreements wCmpA wCmpB
    (sortedK_pair (by decide)) (sortedK_pair (by decide))

/-- Popping the frontier returns one of its elements together with the
rest: the popped node consed onto the remainder is a permutation of the
original frontier. -/
theorem popMinF_perm : (x : IState) → (xs : List IState) →
    List.Perm ((popMinF (x :: xs)).1 :: (popMinF (x :: xs)).2) (x :: xs)
  | x, [] => by simp [popMinF]
  | x, y :: ys => by
    simp only [popMinF]
    by_cases h : x.F ≤ (popMinF (y :: ys)).1.F
    · rw [if_pos h]
    · rw [if_neg h]
      exact List.Perm.trans
        (List.Perm.swap x (popMinF (y :: ys)).1 (popMinF (y :: ys)).2)
        ((popMinF_perm y ys).cons x)

/-- A fold preserves any property each step preserves. -/
theorem foldl_preserves {A B : Type} {P : B → Prop} {f : B → A → B}
    (hf : ∀ b a, P b → P (f b a)) :
    ∀ (l : List A) (b : B), P b → P (l.foldl f b)
  | [], _, hb => hb
  | a :: l, b, hb => foldl_preserves hf l (f b a) (hf b a hb)

/-- A failed open-list scan means no open entry carries the state. -/
theorem openFindIdx_none {st : WorldState} : ∀ {l : List IState},
    openFindIdx st l = none → ∀ o ∈ l, o.state ≠ st := by
  intro l
  induction l with
  | nil => intro _ o ho; cases ho
  | cons x xs ih =>
    intro h o ho
    rw [openFindIdx] at h
    by_cases hx : x.state = st
    · rw [if_pos hx] at h; cases h
    · rw [if_neg hx] at h
      rcases List.mem_cons.mp ho with rfl | hm
      · exact hx
      · rcases hfind : openFindIdx st xs with _ | j
        · exact ih hfind o hm
        · rw [hfind] at h; cases h

/-- A successful open-list scan returns an in-range index whose entry
carries the sought state. -/
theorem openFindIdx_some {st : WorldState} : ∀ {l : List IState} {i : Nat},
    openFindIdx st l = some i →
    i < l.length ∧ (l.getD i default).state = st := by
  intro l
  induction l with
  | nil => intro i h; cases h
  | cons x xs ih =>
    intro i h
    rw [openFindIdx] at h
    by_cases hx : x.state = st
    · rw [if_pos hx] at h
      injection h with h2
      subst h2
      exact ⟨Nat.succ_pos _, hx⟩
    · rw [if_neg hx] at h
      rcases hfind : openFindIdx st xs with _ | j
      · rw [hfind] at h; cases h
      · rw [hfind] at h
        injection h with h2
        subst h2
        obtain ⟨hl, hs⟩ := ih hfind
        exact ⟨Nat.succ_lt_succ hl, hs⟩

/-- Overwriting an entry with one carrying the same state leaves the list
of held states unchanged. -/
theorem map_state_set : ∀ (l : List IState) (i : Nat) (n : IState),
    i < l.length → (l.getD i default).state = n.state →
    (l.set i n).map (fun x => x.state) = l.map (fun x => x.state)
  | [], i, _, h, _ => by cases h
  | x :: xs, 0, n, _, hs => by
    have hx : x.state = n.state := hs
    simp [hx]
  | x :: xs, i + 1, n, h, hs => by
    simp only [List.set_cons_succ, List.map_cons]
    rw [map_state_set xs i n (Nat.lt_of_succ_lt_succ h) hs]

/-- Pairwise distinctness of held states transfers across permutations. -/
theorem distinctStates_perm {l1 l2 : List IState} (h : List.Perm l1 l2) :
    distinctStates l1 ↔ distinctStates l2 := by
  apply List.Perm.pairwise_iff ?_ (h.map _)
  intro a b hab
  exact hab.symm

/-- A node whose state no listed node shares extends distinctness. -/
theorem distinctStates_cons {n : IState} {l : List IState}
    (hn : ∀ o ∈ l, o.state ≠ n.state) (hl : distinctStates l) :
    distinctStates (n :: l) := by
  rw [distinctStates, List.map_cons, List.pairwise_cons]
  refine ⟨?_, hl⟩
  intro b hb
  rw [List.mem_map] at hb
  obtain ⟨o, ho, rfl⟩ := hb
  exact (hn o ho).symm

/-- Replacing an open entry by a node with the same state preserves the
open/closed distinctness invariant. -/
theorem openClosedDistinct_set {p : Planner} {i : Nat} {n : IState}
    (hp : openClosedDistinct p) (hlen : i < p.mOpenList.length)
    (hst : (p.mOpenList.getD i default).state = n.state) :
    distinctStates ((p.mOpenList.set i n) ++ p.mClosedList) := by
  have hmap := map_state_set p.mOpenList i n hlen hst
  unfold openClosedDistinct distinctStates at hp
  unfold distinctStates
  rw [List.map_append, hmap, ← List.map_append]
  exact hp

/-- Appending a node whose state neither list holds preserves the
open/closed distinctness invariant. -/
theorem openClosedDistinct_push {p : Planner} {n : IState}
    (hp : openClosedDistinct p)
    (hopen : ∀ o ∈ p.mOpenList, o.state ≠ n.state)
    (hclosed : ∀ c ∈ p.mClosedList, c.state ≠ n.state) :
    distinctStates ((p.mOpenList ++ [n]) ++ p.mClosedList) := by
  have hperm : List.Perm ((p.mOpenList ++ [n]) ++ p.mClosedList)
      (n :: (p.mOpenList ++ p.mClosedList)) := by
    rw [List.append_assoc, List.singleton_append]
    exact List.perm_middle
  refine (distinctStates_perm hperm).mpr ?_
  apply distinctStates_cons _ hp
  intro o ho
  rcases List.mem_append.mp ho with h1 | h2
  · exact hopen o h1
  · exact hclosed o h2

/-- Moving the popped node from the frontier to the end of the explored
set preserves the open/closed distinctness invariant. -/
theorem openClosedDistinct_pop {p : Planner} {x : IState} {xs : List IState}
    (heq : p.mOpenList = x :: xs) (hp : openClosedDistinct p) :
    distinctStates ((popMinF (x :: xs)).2 ++
      (p.mClosedList ++ [(popMinF (x :: xs)).1])) := by
  have hp2 : distinctStates ((x :: xs) ++ p.mClosedList) := by
    unfold openClosedDistinct at hp
    rw [heq] at hp
    exact hp
  have hperm1 : List.Perm
      ((popMinF (x :: xs)).2 ++ (p.mClosedList ++ [(popMinF (x :: xs)).1]))
      ((popMinF (x :: xs)).1 :: ((popMinF (x :: xs)).2 ++ p.mClosedList)) := by
    rw [← List.append_assoc]
    exact List.perm_append_singleton _ _
  have hperm2 : List.Perm
      ((popMinF (x :: xs)).1 :: ((popMinF (x :: xs)).2 ++ p.mClosedList))
      ((x :: xs) ++ p.mClosedList) :=
    (popMinF_perm x xs).append_right p.mClosedList
  exact (distinctStates_perm (hperm1.trans hperm2)).mpr hp2

/-- `attemptIntermediate` preserves the distinctness of the states across
the open and closed lists: it only replaces an open entry by one with the
same state, or appends a state absent from both lists. -/
theorem attempt_preserves (p : Planner) (s : IState) (ac : Action) (pref : Rat)
    (plist : List PVal) (hp : openClosedDistinct p) :
    openClosedDistinct (attemptIntermediate p s ac pref plist) := by
  simp only [attemptIntermediate]
  split
  · exact hp
  · split
    · exact hp
    · rename_i hclosed
      split
      · rename_i i hfind
        split
        · obtain ⟨hlen, hst⟩ := openFindIdx_some hfind
          exact openClosedDistinct_set hp hlen hst
        · exact hp
      · rename_i hfind
        have honone := openFindIdx_none hfind
        have hclosedne : ∀ c ∈ p.mClosedList,
            c.state ≠ s.state.applyReverse ac plist := by
          intro c hc he
          apply hclosed
          rw [List.any_eq_true]
          exact ⟨c, hc, by simp [he]⟩
        exact openClosedDistinct_push hp honone hclosedne

/-- The action/binding expansion fold preserves open/closed state
distinctness. -/
theorem expand_preserves (p : Planner) (s : IState)
    (hp : openClosedDistinct p) : openClosedDistinct (expandActions p s) := by
  rw [expandActions]
  apply foldl_preserves ?_ _ _ hp
  intro q entry hq
  rcases entry with ⟨oac, pref⟩
  rcases oac with _ | ac
  · exact hq
  · exact foldl_preserves (fun q2 b hb => attempt_preserves q2 s ac pref b hb)
      _ q hq

/-- One update step preserves open/closed state distinctness: the popped
node merely moves from the frontier to the explored set, and the
expansion preserves the property clause by clause. -/
theorem update_preserves (p : Planner) (hp : openClosedDistinct p) :
    openClosedDistinct (updateSlicedPlan p).2 := by
  simp only [updateSlicedPlan]
  split
  · exact hp
  · rename_i x xs heq
    split
    · exact openClosedDistinct_pop heq hp
    · exact expand_preserves _ _ (openClosedDistinct_pop heq hp)

/-- Every planner state reachable through the public calls keeps the
states across the open and closed lists pairwise distinct. -/
theorem reach_openClosedDistinct : ∀ p, Reach p → openClosedDistinct p := by
  intro p h
  induction h with
  | ctor s g c a => simp [openClosedDistinct, distinctStates, PlannerMk]
  | dflt js jg jc ja jb ji =>
    simp [openClosedDistinct, distinctStates, PlannerDefaultCtor]
  | start p w _ ih => exact ih
  | goal p w _ ih => exact ih
  | constants p w _ ih => exact ih
  | actions p s _ ih => exact ih
  | objects p os _ ih => exact ih
  | init p _ ih =>
    rcases hs : p.mStart with _ | st <;> rcases hg : p.mGoal with _ | g <;>
      rcases ha : p.mActions with _ | as <;>
      simp_all [initSlicedPlan, openClosedDistinct, distinctStates]
  | update p _ ih => exact update_preserves p ih
  | finalise p _ ih =>
    simp [finaliseSlicedPlan, openClosedDistinct, distinctStates]

/-- C7.  Throughout any search -- any planner state reachable through
construction, setters, init, update and finalise calls -- no two entries
of the explored (closed) set hold structurally equal world states. -/
theorem C7_explored_states_pairwise_distinct (p : Planner) (h : Reach p) :
    distinctStates p.mClosedList := by
  have hoc := reach_openClosedDistinct p h
  unfold openClosedDistinct distinctStates at hoc
  rw [List.map_append] at hoc
  exact (List.pairwise_append.mp hoc).2.1

/-- Witness for C7: a freshly initialised planner is reachable and its
explored set holds pairwise distinct states. -/
theorem C7_explored_witness :
    distinctStates (initSlicedPlan
      (PlannerMk (some ⟨[]⟩) (some ⟨[]⟩) none (some []))).2.mClosedList :=
  C7_explored_states_pairwise_distinct _
    (Reach.init _ (Reach.ctor _ _ _ _))


end AesopSrc
